import Mathlib

/-!
# go-ping: the composite health check of `main.go`

A shallow embedding of `main.go`: the HTTP response writer, the buffered
result channel `errC`, the aggregation loop of `newPingHandler`, the two
checks, the contexts with their deadlines, the start-up code of `main`,
and the theorems that settle the specification's claims on them.

The functions of `main.go` keep their names. What they call in the Go
libraries (`net/http`, `context`, `database/sql`, `os`, `path`, `log/slog`)
is modelled after the documented behaviour of those packages: effects are
explicit state (`World`, `Proc`), time is a natural number of nanoseconds,
the two goroutines of a request are described by the instants at which
they start (`Sched`), and a Go string is a list of characters. The
deferred `cancel()` calls and the deferred `db.Close()` of `main` (never
reached while the server runs) have no observable effect here.
-/

namespace GoPing

/-! ## Errors and log records -/

/-- Value of a non-nil Go `error`; only its message is observable. -/
structure GoError where
  msg : String
  deriving DecidableEq, Repr

/-- Go `error` interface value: `none` is `nil`. -/
abbrev Err := Option GoError

/-- Value of a structured logging attribute. -/
inductive AttrVal where
  | str (s : String)
  | err (e : GoError)
  deriving DecidableEq, Repr

/-- Severity of a `slog` record. -/
inductive Level where
  | info
  | error
  deriving DecidableEq, Repr

/-- One record written through `slog`. -/
structure LogEntry where
  level : Level
  msg : String
  attrs : List (String × AttrVal)
  deriving DecidableEq, Repr

/-- Record written by `slog.Error(msg, attrs...)`. -/
def slogError (msg : String) (attrs : List (String × AttrVal)) : LogEntry :=
  { level := Level.error, msg := msg, attrs := attrs }

/-- Record written by `slog.Info(msg, attrs...)`. -/
def slogInfo (msg : String) (attrs : List (String × AttrVal)) : LogEntry :=
  { level := Level.info, msg := msg, attrs := attrs }

/-! ## The response writer of `net/http` -/

def StatusOK : Nat := 200

def StatusServiceUnavailable : Nat := 503

def StatusNotFound : Nat := 404

/-- State of an `http.ResponseWriter` while a handler runs. -/
structure ResponseWriter where
  wroteHeader : Bool
  status : Nat
  body : String
  deriving DecidableEq, Repr

/-- Fresh writer handed to a handler. -/
def ResponseWriter.new : ResponseWriter :=
  { wroteHeader := false, status := 0, body := "" }

/-- Method `w.WriteHeader(code)`: the first call fixes the status, later calls are ignored. -/
def ResponseWriter.WriteHeader (w : ResponseWriter) (code : Nat) : ResponseWriter :=
  if w.wroteHeader then w else { w with wroteHeader := true, status := code }

/-- Call `fmt.Fprint(w, s)`: a write before any `WriteHeader` sends status 200 first. -/
def ResponseWriter.Fprint (w : ResponseWriter) (s : String) : ResponseWriter :=
  let w1 := if w.wroteHeader then w else w.WriteHeader StatusOK
  { w1 with body := w1.body ++ s }

/-- What the client receives: status code and body. -/
structure Response where
  status : Nat
  body : String
  deriving DecidableEq, Repr

/-- Response sent once the handler has returned: a handler that wrote nothing yields 200. -/
def ResponseWriter.finish (w : ResponseWriter) : Response :=
  let w1 := if w.wroteHeader then w else w.WriteHeader StatusOK
  { status := w1.status, body := w1.body }

/-! ## The result channel and the aggregation loop of `newPingHandler` -/

/-- Contents of the buffered channel `errC`, oldest result first. -/
abbrev Chan := List Err

/-- Receive `<-errC`: `none` when no result is there and none will come (the receiver blocks). -/
def recv (c : Chan) : Option (Err × Chan) :=
  match c with
  | [] => none
  | e :: rest => some (e, rest)

/-- Variables live across the loop of lines 91-97. -/
structure LoopState where
  healthy : Bool
  logs : List LogEntry
  errC : Chan
  deriving DecidableEq, Repr

/-- Record logged for one failed check (line 95). -/
def failureEntry (e : GoError) : LogEntry :=
  slogError "health check failed" [("error", AttrVal.err e)]

/-- One pass through the loop body (lines 93-96); `none` when the receive blocks. -/
def loopBody (st : LoopState) : Option LoopState :=
  match recv st.errC with
  | none => none
  | some (none, rest) => some { st with errC := rest }
  | some (some e, rest) =>
      some { healthy := false, logs := st.logs ++ [failureEntry e], errC := rest }

/-- Loop `for i := 0; i < 2; i++` of line 92, entered with `k = 2 - i` passes left. -/
def pingLoop : Nat → LoopState → Option LoopState
  | 0, st => some st
  | k + 1, st =>
      match loopBody st with
      | none => none
      | some st1 => pingLoop k st1

/-- Result of lines 91-103 once the handler has returned. -/
structure Aggregate where
  healthy : Bool
  response : Response
  logs : List LogEntry
  errC : Chan
  deriving DecidableEq, Repr

/-- Lines 91-103 of `newPingHandler`, run on the results that reach `errC` in arrival
order; `none` when the handler blocks in a receive and never responds. -/
def aggregate (errC : Chan) : Option Aggregate :=
  match pingLoop 2 { healthy := true, logs := [], errC := errC } with
  | none => none
  | some st =>
      let w := ResponseWriter.new
      let w1 :=
        if !st.healthy then
          (w.WriteHeader StatusServiceUnavailable).Fprint "DOWN"
        else
          w.Fprint "OK"
      some { healthy := st.healthy, response := w1.finish, logs := st.logs, errC := st.errC }

/-- Order in which the two goroutines of lines 84-89 send their results on `errC`. -/
def arrivals (dbErr fsErr : Err) (dbFirst : Bool) : Chan :=
  if dbFirst then [dbErr, fsErr] else [fsErr, dbErr]

/-! ## Time and contexts -/

/-- Instants, in nanoseconds since an arbitrary origin. -/
abbrev Time := Nat

/-- Durations, in nanoseconds (`time.Duration`). -/
abbrev Duration := Nat

/-- Constant `time.Second`. -/
def Second : Duration := 1000000000

/-- A `context.Context`: its deadline, if any, and the instant at which its owner
cancels it (a client that disconnects), if ever. -/
structure Context where
  deadline : Option Time
  cancelAt : Option Time
  deriving DecidableEq, Repr

/-- Function `context.WithDeadline(parent, d)`: the parent is kept when its deadline is
already earlier than `d`, otherwise the child's deadline is `d`. -/
def WithDeadline (parent : Context) (d : Time) : Context :=
  match parent.deadline with
  | some cur => if cur < d then parent else { parent with deadline := some d }
  | none => { parent with deadline := some d }

/-- Function `context.WithTimeout(parent, timeout)` called at instant `now`. -/
def WithTimeout (parent : Context) (timeout : Duration) (now : Time) : Context :=
  WithDeadline parent (now + timeout)

/-- The earlier of two optional instants. -/
def earliest : Option Time → Option Time → Option Time
  | none, b => b
  | some a, none => some a
  | some a, some b => some (min a b)

/-- Instant at which `ctx.Done()` is closed, if ever. -/
def Context.doneAt (c : Context) : Option Time :=
  earliest c.deadline c.cancelAt

def DeadlineExceeded : GoError := { msg := "context deadline exceeded" }

def Canceled : GoError := { msg := "context canceled" }

/-- Value of `ctx.Err()` once the context is done. -/
def Context.err (c : Context) : GoError :=
  match c.deadline, c.cancelAt with
  | some d, some k => if k < d then Canceled else DeadlineExceeded
  | some _, none => DeadlineExceeded
  | none, _ => Canceled

/-! ## The database handle -/

/-- A `sql.DB` handle as returned by `sql.Open`; the pointer `*sql.DB` is `Option DB`. -/
structure DB where
  driverName : String
  dsn : String
  deriving DecidableEq, Repr

/-- The database as a ping sees it: what a completed round trip reports, how long the
round trip takes (`none`: the server never answers), and the contexts of the
`PingContext` calls made so far. -/
structure DBState where
  pingErr : Err
  pingLatency : Option Duration
  pingCalls : List Context
  deriving DecidableEq, Repr

/-- How a call ends: it returns a value at some instant, never returns, or panics. -/
inductive Call (α : Type) where
  | returned (v : α) (time : Time)
  | never
  | panic
  deriving DecidableEq, Repr

/-- Method `db.PingContext(ctx)` called at `now`: a nil handle panics; the round trip
wins when it completes before the context is done, otherwise the call returns `ctx.Err()`
at the instant the context is done (at once when it is done already). -/
def PingContext (ctx : Context) (db : Option DB) (srv : DBState) (now : Time) :
    Call Err × DBState :=
  match db with
  | none => (Call.panic, srv)
  | some _ =>
      let srv1 := { srv with pingCalls := srv.pingCalls ++ [ctx] }
      match ctx.doneAt, srv.pingLatency with
      | some d, some lat =>
          if now + lat < d then (Call.returned srv.pingErr (now + lat), srv1)
          else (Call.returned (some ctx.err) (max now d), srv1)
      | some d, none => (Call.returned (some ctx.err) (max now d), srv1)
      | none, some lat => (Call.returned srv.pingErr (now + lat), srv1)
      | none, none => (Call.never, srv1)

/-- Function `checkMySQL` (lines 111-115), entered at instant `now`. -/
def checkMySQL (ctx : Context) (db : Option DB) (srv : DBState) (now : Time) :
    Call Err × DBState :=
  let ctx1 := WithTimeout ctx (2 * Second) now
  PingContext ctx1 db srv now

/-! ## Package `path`: `Clean` and `Join` -/

/-- Test `r == n || path[r] == '/'` on the unread input: the element ends here. -/
def elemEnds (p : List Char) : Bool :=
  match p with
  | [] => true
  | c :: _ => c == '/'

/-- Backtracking of `Clean` on a `..` element: `out.w--`, then `out.w--` again while
`out.w > dotdot` and the byte at `out.w` is not a slash. The buffer is held last byte
first. -/
def backtrack (dotdot : Nat) : List Char → List Char
  | [] => []
  | c :: rest => if rest.length > dotdot ∧ c ≠ '/' then backtrack dotdot rest else rest

/-- Main loop of `path.Clean` over the unread input, returning the output buffer and
`dotdot`. `copying` is true inside the inner loop that copies a real path element; `rout`
is the output buffer, last byte first; `dotdot` is the index in the buffer where `..` must
stop. -/
def cleanLoop (rooted : Bool) : Bool → List Char → List Char → Nat → List Char × Nat
  | _, [], rout, dotdot => (rout, dotdot)
  | true, c :: rest, rout, dotdot =>
      if c = '/' then cleanLoop rooted false rest rout dotdot
      else cleanLoop rooted true rest (c :: rout) dotdot
  | false, c :: rest, rout, dotdot =>
      if c = '/' then
        cleanLoop rooted false rest rout dotdot
      else if c = '.' ∧ elemEnds rest = true then
        cleanLoop rooted false rest rout dotdot
      else
        let sep : List Char :=
          if (rooted = true ∧ rout.length ≠ 1) ∨ (rooted = false ∧ rout.length ≠ 0) then
            '/' :: rout
          else rout
        match rest with
        | [] => (c :: sep, dotdot)  -- the copy loop appends `c` and the input is exhausted
        | d :: rest2 =>
            if c = '.' ∧ d = '.' ∧ elemEnds rest2 = true then
              if rout.length > dotdot then
                cleanLoop rooted false rest2 (backtrack dotdot rout) dotdot
              else if rooted = false then
                let rout1 := if rout.length > 0 then '/' :: rout else rout
                cleanLoop rooted false rest2 ('.' :: '.' :: rout1) (rout1.length + 2)
              else
                cleanLoop rooted false rest2 rout dotdot
            else
              cleanLoop rooted true (d :: rest2) (c :: sep) dotdot

/-- Function `path.Clean` on the bytes of a path. -/
def cleanChars (p : List Char) : List Char :=
  match p with
  | [] => ['.']
  | c :: rest =>
      let out :=
        if c = '/' then (cleanLoop true false rest ['/'] 1).1.reverse
        else (cleanLoop false false (c :: rest) [] 0).1.reverse
      if out.length = 0 then ['.'] else out

/-- Function `path.Clean`. -/
def path.Clean (p : String) : String :=
  String.mk (cleanChars p.data)

/-- Buffer that `path.Join` builds before cleaning: the non-empty elements separated by
slashes. -/
def joinBuf : List Char → List String → List Char
  | buf, [] => buf
  | buf, e :: es =>
      if buf.length > 0 ∨ e ≠ "" then
        joinBuf ((if buf.length > 0 then buf ++ ['/'] else buf) ++ e.data) es
      else joinBuf buf es

/-- Function `path.Join(elem...)`. -/
def path.Join (elem : List String) : String :=
  if (elem.map String.length).sum = 0 then ""
  else String.mk (cleanChars (joinBuf [] elem))

/-! ## The volume -/

/-- The filesystem: the content of each named file, the error `os.Create` meets for each
name (`none`: creation succeeds), how long a creation takes, and the names of the files
held open. -/
structure FS where
  files : String → Option (List UInt8)
  createErr : String → Err
  createLatency : Duration
  openFiles : List String

/-- An `os.File`; the pointer `*os.File` is `Option File`. -/
structure File where
  name : String
  deriving DecidableEq, Repr

/-- Function `os.Create(name)`: creates the named file or truncates it to no content, and
opens it; on failure nothing changes and the error is returned. -/
def os.Create (name : String) (fs : FS) : (Option File × Err) × FS :=
  match fs.createErr name with
  | some e => ((none, some e), fs)
  | none =>
      ((some { name := name }, none),
        { fs with
          files := fun n => if n = name then some [] else fs.files n
          openFiles := name :: fs.openFiles })

/-- Method `file.Close()`: releases the handle; its error is not looked at. -/
def File.Close (file : File) (fs : FS) : FS :=
  { fs with openFiles := fs.openFiles.erase file.name }

/-- Function `checkFile` (lines 117-125). -/
def checkFile (dir : String) (fs : FS) : Err × FS :=
  let filename := path.Join [dir, "healthcheck.txt"]
  match os.Create filename fs with
  | ((_, some err), fs1) => (some err, fs1)
  | ((some file, none), fs1) => (none, file.Close fs1)
  | ((none, none), fs1) => (none, fs1)

/-! ## Requests, handlers and the ping handler -/

/-- An `http.Request`: method, URL path and the context of the inbound request. -/
structure Request where
  method : String
  path : String
  ctx : Context
  deriving DecidableEq, Repr

/-- Everything outside the process that a handler can touch. -/
structure World where
  fs : FS
  db : DBState

/-- Scheduling of one request: when the handler is entered, when the goroutine of line 84
starts `checkMySQL`, when the goroutine of line 87 starts `checkFile`, and which send
reaches `errC` first when both results are ready at the same instant. -/
structure Sched where
  t0 : Time
  t1 : Time
  t2 : Time
  dbFirstOnTie : Bool
  deriving DecidableEq, Repr

/-- How serving a request ends: a response sent at some instant with the records logged
and the world left behind, a handler blocked for ever in a receive, or a panic in a
goroutine, which ends the process. -/
inductive HandlerResult where
  | responded (resp : Response) (time : Time) (logs : List LogEntry) (world : World)
  | blocked
  | panicked

/-- An `http.HandlerFunc`, run on a request, a world and a schedule. -/
abbrev Handler := Request → World → Sched → HandlerResult

/-- Context built at line 80 by a handler entered at `t0`. -/
def handlerCtx (r : Request) (t0 : Time) : Context :=
  WithTimeout r.ctx (2 * Second) t0

/-- Whether the result of the database check reaches `errC` before the result of the
filesystem check, given the instants at which the two checks return. -/
def dbArrivesFirst (dbAt fsAt : Time) (dbFirstOnTie : Bool) : Bool :=
  decide (dbAt < fsAt) || (decide (dbAt = fsAt) && dbFirstOnTie)

/-- Function `newPingHandler` (lines 78-105). -/
def newPingHandler (db : Option DB) (path : String) : Handler := fun r w s =>
  let ctx := handlerCtx r s.t0
  let (dbCall, db1) := checkMySQL ctx db w.db s.t1
  let (fsErr, fs1) := checkFile path w.fs
  let fsAt := s.t2 + w.fs.createLatency
  match dbCall with
  | Call.panic => HandlerResult.panicked
  | Call.never =>
      match aggregate [fsErr] with
      | none => HandlerResult.blocked
      | some a =>
          HandlerResult.responded a.response fsAt a.logs { fs := fs1, db := db1 }
  | Call.returned dbErr dbAt =>
      let dbFirst := dbArrivesFirst dbAt fsAt s.dbFirstOnTie
      match aggregate (arrivals dbErr fsErr dbFirst) with
      | none => HandlerResult.blocked
      | some a =>
          HandlerResult.responded a.response (max dbAt fsAt) a.logs { fs := fs1, db := db1 }

/-- Function `ok` (lines 107-109). -/
def ok : Handler := fun _ w s =>
  let rw := ResponseWriter.new.WriteHeader StatusOK
  HandlerResult.responded rw.finish s.t0 [] w

/-- Handler `http.NotFound`, the answer of the multiplexer to an unregistered path. -/
def NotFound : Handler := fun _ w s =>
  let rw := (ResponseWriter.new.WriteHeader StatusNotFound).Fprint "404 page not found\n"
  HandlerResult.responded rw.finish s.t0 [] w

/-- The patterns registered on `http.DefaultServeMux`, in registration order. -/
abbrev ServeMux := List (String × Handler)

/-- Function `http.HandleFunc(pattern, handler)`. -/
def HandleFunc (mux : ServeMux) (pattern : String) (h : Handler) : ServeMux :=
  mux ++ [(pattern, h)]

/-- Handler the multiplexer selects for a URL path: the patterns of `main` end in no
slash, so a pattern matches exactly its own path. -/
def ServeMux.handler (mux : ServeMux) (urlPath : String) : Handler :=
  match mux.find? (fun e => e.1 == urlPath) with
  | some e => e.2
  | none => NotFound

/-- Serving one request through the multiplexer. -/
def ServeMux.serve (mux : ServeMux) (r : Request) (w : World) (s : Sched) : HandlerResult :=
  mux.handler r.path r w s

/-! ## Start-up: `mustGetenv`, `initDB`, `main` -/

/-- What the process reads at start-up: the environment variables, `os.ReadFile`, whether
`AppendCertsFromPEM` finds a certificate in the given bytes, and `sql.Open`. -/
structure Env where
  getenv : String → String
  readFile : String → Except GoError (List UInt8)
  appendCertsFromPEM : List UInt8 → Bool
  sqlOpen : String → String → Except GoError DB

/-- Process-wide state: the records logged, the keys registered with
`mysql.RegisterTLSConfig`, and the default multiplexer. -/
structure Proc where
  logs : List LogEntry
  tlsConfigs : List String
  mux : ServeMux

/-- State of a process that has just started. -/
def Proc.init : Proc :=
  { logs := [], tlsConfigs := [], mux := [] }

/-- Append one record to the process log. -/
def Proc.log (p : Proc) (e : LogEntry) : Proc :=
  { p with logs := p.logs ++ [e] }

/-- How `main` ends: `os.Exit(code)`, or the call of `http.ListenAndServe`. -/
inductive MainResult where
  | exited (code : Nat) (p : Proc)
  | serving (listenAddr : String) (p : Proc)

/-- Function `mustGetenv` (lines 50-57): the value, or the state in which `os.Exit(1)`
is called. -/
def mustGetenv (env : Env) (k : String) (p : Proc) : Except Proc (String × Proc) :=
  let v := env.getenv k
  if v = "" then
    Except.error (p.log (slogError "missing required env var" [("var", AttrVal.str k)]))
  else Except.ok (v, p)

/-- Function `initDB` (lines 59-76); the pair is the Go result `(*sql.DB, error)`. -/
def initDB (env : Env) (host database user password rootCACert : String) (p : Proc) :
    (Option DB × Err) × Proc :=
  match env.readFile rootCACert with
  | Except.error e => ((none, some e), p)
  | Except.ok pem =>
      let err : Err := none
      if env.appendCertsFromPEM pem = false then ((none, err), p)
      else
        let p1 := { p with tlsConfigs := p.tlsConfigs ++ ["custom"] }
        let connStr := user ++ ":" ++ password ++ "@tcp(" ++ host ++ ":3306)/" ++ database
          ++ "?allowNativePasswords=true&tls=custom"
        match env.sqlOpen "mysql" connStr with
        | Except.error e => ((none, some e), p1)
        | Except.ok db => ((some db, none), p1)

/-- Lines 26-47 of `main`, once the six required variables are read. -/
def mainFrom (env : Env) (host database user password vol rootCACert : String)
    (p : Proc) : MainResult :=
  let listenAddr := if env.getenv "LISTEN_ADDR" = "" then ":8000" else env.getenv "LISTEN_ADDR"
  match initDB env host database user password rootCACert p with
  | ((_, some err), p1) =>
      MainResult.exited 1
        (p1.log (slogError "initializing MySQL driver" [("error", AttrVal.err err)]))
  | ((db, none), p1) =>
      let p2 := p1.log (slogInfo "connected to database server"
        [("host", AttrVal.str host), ("database", AttrVal.str database),
          ("user", AttrVal.str user)])
      let p3 := p2.log (slogInfo "using volume" [("path", AttrVal.str vol)])
      let pingHandler := newPingHandler db vol
      let p4 := { p3 with mux := HandleFunc p3.mux "/ping" pingHandler }
      let p5 := { p4 with mux := HandleFunc p4.mux "/healthz/ready" pingHandler }
      let p6 := { p5 with mux := HandleFunc p5.mux "/healthz/live" ok }
      let p7 := p6.log (slogInfo ("listening on " ++ listenAddr) [])
      MainResult.serving listenAddr p7

/-- Function `main` (lines 18-48). -/
def main (env : Env) : MainResult :=
  match mustGetenv env "MYSQL_HOST" Proc.init with
  | Except.error p => MainResult.exited 1 p
  | Except.ok (host, p1) =>
  match mustGetenv env "MYSQL_DATABASE" p1 with
  | Except.error p => MainResult.exited 1 p
  | Except.ok (database, p2) =>
  match mustGetenv env "MYSQL_USER" p2 with
  | Except.error p => MainResult.exited 1 p
  | Except.ok (user, p3) =>
  match mustGetenv env "MYSQL_PASSWORD" p3 with
  | Except.error p => MainResult.exited 1 p
  | Except.ok (password, p4) =>
  match mustGetenv env "VOLUME_PATH" p4 with
  | Except.error p => MainResult.exited 1 p
  | Except.ok (vol, p5) =>
  match mustGetenv env "ROOT_CA_CERT" p5 with
  | Except.error p => MainResult.exited 1 p
  | Except.ok (rootCACert, p6) =>
      mainFrom env host database user password vol rootCACert p6

/-- Whether `main` reached `http.ListenAndServe`. -/
def MainResult.isServing : MainResult → Bool
  | MainResult.serving _ _ => true
  | MainResult.exited _ _ => false

/-- Exit status of `main`, when it exits. -/
def MainResult.exitCode : MainResult → Option Nat
  | MainResult.serving _ _ => none
  | MainResult.exited c _ => some c

/-- Process state in which `main` ends. -/
def MainResult.proc : MainResult → Proc
  | MainResult.serving _ p => p
  | MainResult.exited _ p => p

/-- URL patterns registered on the multiplexer. -/
def Proc.patterns (p : Proc) : List String :=
  p.mux.map (fun e => e.1)

/-- Response of a handler that responded. -/
def HandlerResult.response? : HandlerResult → Option Response
  | HandlerResult.responded resp _ _ _ => some resp
  | HandlerResult.blocked => none
  | HandlerResult.panicked => none

/-- Instant at which a handler responded. -/
def HandlerResult.time? : HandlerResult → Option Time
  | HandlerResult.responded _ t _ _ => some t
  | HandlerResult.blocked => none
  | HandlerResult.panicked => none

/-- Records logged by a handler that responded. -/
def HandlerResult.logs? : HandlerResult → Option (List LogEntry)
  | HandlerResult.responded _ _ logs _ => some logs
  | HandlerResult.blocked => none
  | HandlerResult.panicked => none

/-- The two responses the ping handler can send. -/
def verdictResponse (healthy : Bool) : Response :=
  if healthy then { status := 200, body := "OK" } else { status := 503, body := "DOWN" }

/-- Records logged for one received result. -/
def logsOf (r : Err) : List LogEntry :=
  match r with
  | none => []
  | some e =>
      [{ level := Level.error, msg := "health check failed",
         attrs := [("error", AttrVal.err e)] }]

/-! ## Concrete scenarios -/

/-- A volume holding no file on which every creation succeeds and takes `latency`. -/
def writableFS (latency : Duration) : FS :=
  { files := fun _ => none
    createErr := fun _ => none
    createLatency := latency
    openFiles := [] }

/-- A volume holding no file on which every creation is refused. -/
def readOnlyFS : FS :=
  { files := fun _ => none
    createErr := fun _ => some { msg := "read-only file system" }
    createLatency := 0
    openFiles := [] }

/-- A database that has seen no ping and answers one with `err` after `latency`. -/
def freshDB (err : Err) (latency : Option Duration) : DBState :=
  { pingErr := err, pingLatency := latency, pingCalls := [] }

/-- A GET request for `urlPath` whose context has no deadline and is never cancelled. -/
def plainRequest (urlPath : String) : Request :=
  { method := "GET", path := urlPath, ctx := { deadline := none, cancelAt := none } }

/-- A schedule in which the handler and both goroutines start at instant 0. -/
def promptSched : Sched :=
  { t0 := 0, t1 := 0, t2 := 0, dbFirstOnTie := true }

/-- A non-nil database handle. -/
def someHandle : DB :=
  { driverName := "mysql"
    dsn := "app:secret@tcp(db.local:3306)/ping?allowNativePasswords=true&tls=custom" }

/-- A start-up environment with every required variable set, a readable CA file, and a
driver that accepts the connection string; `pemValid` tells whether the CA file holds a
certificate. -/
def startEnv (pemValid : Bool) : Env :=
  { getenv := fun k =>
      if k = "MYSQL_HOST" then "db.local"
      else if k = "MYSQL_DATABASE" then "ping"
      else if k = "MYSQL_USER" then "app"
      else if k = "MYSQL_PASSWORD" then "secret"
      else if k = "VOLUME_PATH" then "/vol"
      else if k = "ROOT_CA_CERT" then "/etc/ca.pem"
      else ""
    readFile := fun _ => Except.ok [110, 111, 116, 32, 80, 69, 77]
    appendCertsFromPEM := fun _ => pemValid
    sqlOpen := fun driverName dsn => Except.ok { driverName := driverName, dsn := dsn } }

/-! ## Lemmas on the aggregation -/

theorem aggregate_two (a b : Err) (rest : Chan) :
    aggregate (a :: b :: rest) =
      some { healthy := a.isNone && b.isNone
             response := verdictResponse (a.isNone && b.isNone)
             logs := logsOf a ++ logsOf b
             errC := rest } := by
  cases a <;> cases b <;> rfl

theorem aggregate_one (a : Err) : aggregate [a] = none := by
  cases a <;> rfl

theorem aggregate_arrivals (dbErr fsErr : Err) (dbFirst : Bool) :
    ∃ logs, aggregate (arrivals dbErr fsErr dbFirst) =
      some { healthy := dbErr.isNone && fsErr.isNone
             response := verdictResponse (dbErr.isNone && fsErr.isNone)
             logs := logs
             errC := [] } := by
  cases dbFirst
  · refine ⟨logsOf fsErr ++ logsOf dbErr, ?_⟩
    simp only [arrivals, aggregate_two, Bool.and_comm, Bool.false_eq_true, if_false]
  · refine ⟨logsOf dbErr ++ logsOf fsErr, ?_⟩
    simp only [arrivals, aggregate_two, if_true]

/-! ## Lemmas on contexts and on the database check -/

theorem WithDeadline_deadline (c : Context) (d : Time) :
    (WithDeadline c d).deadline = earliest c.deadline (some d) := by
  unfold WithDeadline
  cases h : c.deadline with
  | none => simp [earliest]
  | some cur =>
      by_cases hlt : cur < d
      · simp [earliest, hlt, h, Nat.min_eq_left (Nat.le_of_lt hlt)]
      · simp [earliest, hlt, Nat.min_eq_right (Nat.le_of_not_lt hlt)]

theorem WithDeadline_cancelAt (c : Context) (d : Time) :
    (WithDeadline c d).cancelAt = c.cancelAt := by
  unfold WithDeadline
  cases h : c.deadline with
  | none => rfl
  | some cur =>
      by_cases hlt : cur < d
      · simp [hlt]
      · simp [hlt]

theorem earliest_some_right (a : Option Time) (d : Time) :
    ∃ x, earliest a (some d) = some x ∧ x ≤ d ∧ (∀ y, a = some y → x ≤ y) := by
  cases a with
  | none => exact ⟨d, rfl, Nat.le_refl d, fun y hy => by cases hy⟩
  | some v =>
      refine ⟨min v d, rfl, Nat.min_le_right v d, ?_⟩
      intro y hy
      cases hy
      exact Nat.min_le_left v d

theorem earliest_some_left (d : Time) (b : Option Time) :
    ∃ x, earliest (some d) b = some x ∧ x ≤ d := by
  cases b with
  | none => exact ⟨d, rfl, Nat.le_refl d⟩
  | some v => exact ⟨min d v, rfl, Nat.min_le_left d v⟩

theorem nat_min_two (x y dl : Nat) (h : min x y = dl) :
    dl ≤ x ∧ dl ≤ y ∧ (dl = x ∨ dl = y) := by
  rw [Nat.min_def] at h
  split at h <;> omega

theorem nat_min_three (v x y dl : Nat) (h : min (min v x) y = dl) :
    dl ≤ v ∧ dl ≤ x ∧ dl ≤ y ∧ (v = dl ∨ dl = x ∨ dl = y) := by
  obtain ⟨h1, h2, h3⟩ := nat_min_two (min v x) y dl h
  obtain ⟨h4, h5, h6⟩ := nat_min_two v x (min v x) rfl
  omega

theorem nat_min_later (v x y : Nat) (h : x ≤ y) : min (min v x) y = min v x :=
  Nat.min_eq_left (Nat.le_trans (Nat.min_le_right v x) h)

theorem earliest_three (a : Option Time) (x y dl : Time)
    (h : earliest (earliest a (some x)) (some y) = some dl) :
    dl ≤ x ∧ dl ≤ y ∧ (∀ v, a = some v → dl ≤ v) ∧ (a = some dl ∨ dl = x ∨ dl = y) := by
  cases a with
  | none =>
      simp only [earliest, Option.some.injEq] at h
      obtain ⟨h1, h2, h3⟩ := nat_min_two x y dl h
      refine ⟨h1, h2, ?_, Or.inr h3⟩
      intro v hv
      cases hv
  | some v =>
      simp only [earliest, Option.some.injEq] at h
      obtain ⟨h1, h2, h3, h4⟩ := nat_min_three v x y dl h
      refine ⟨h2, h3, ?_, ?_⟩
      · intro v1 hv
        cases hv
        exact h1
      · rcases h4 with h5 | h5 | h5
        · left; rw [h5]
        · right; left; exact h5
        · right; right; exact h5

theorem earliest_later (a : Option Time) (x y : Time) (h : x ≤ y) :
    earliest (earliest a (some x)) (some y) = earliest a (some x) := by
  cases a with
  | none =>
      simp only [earliest, Option.some.injEq]
      exact Nat.min_eq_left h
  | some v =>
      simp only [earliest, Option.some.injEq]
      exact nat_min_later v x y h

/-- The context of the ping: its deadline exists and is at most two seconds after the
handler was entered; so does the instant at which it is done. -/
theorem pingCtx_done (r : Request) (t0 t1 : Time) :
    ∃ dl dn, (WithTimeout (handlerCtx r t0) (2 * Second) t1).deadline = some dl ∧
      (WithTimeout (handlerCtx r t0) (2 * Second) t1).doneAt = some dn ∧
      dn ≤ dl ∧ dl ≤ t0 + 2 * Second := by
  obtain ⟨x, hx, hxd, -⟩ := earliest_some_right r.ctx.deadline (t0 + 2 * Second)
  have h0 : (handlerCtx r t0).deadline = some x := by
    simp only [handlerCtx, WithTimeout, WithDeadline_deadline, hx]
  obtain ⟨y, hy, -, hyx⟩ := earliest_some_right (handlerCtx r t0).deadline (t1 + 2 * Second)
  have h1 : (WithTimeout (handlerCtx r t0) (2 * Second) t1).deadline = some y := by
    simp only [WithTimeout, WithDeadline_deadline, hy]
  obtain ⟨z, hz, hzy⟩ := earliest_some_left y
    (WithTimeout (handlerCtx r t0) (2 * Second) t1).cancelAt
  refine ⟨y, z, h1, ?_, hzy, Nat.le_trans (hyx x h0) hxd⟩
  simp only [Context.doneAt, h1, hz]

/-- A ping on a non-nil handle under a context that is done at `dn` returns, and no later
than the later of its start and `dn`. -/
theorem PingContext_returns (ctx : Context) (d : DB) (srv : DBState) (now dn : Time)
    (hdn : ctx.doneAt = some dn) :
    ∃ e t, PingContext ctx (some d) srv now =
        (Call.returned e t, { srv with pingCalls := srv.pingCalls ++ [ctx] }) ∧
      t ≤ max now dn ∧
      ((∀ lat, srv.pingLatency = some lat → dn ≤ now + lat) → e = some ctx.err) ∧
      ((∃ lat, srv.pingLatency = some lat ∧ now + lat < dn) → e = srv.pingErr) := by
  unfold PingContext
  cases hl : srv.pingLatency with
  | none =>
      refine ⟨some ctx.err, max now dn, ?_, Nat.le_refl _, fun _ => rfl, ?_⟩
      · simp [hdn]
      · rintro ⟨lat, hlat, -⟩
        cases hlat
  | some lat =>
      by_cases hlt : now + lat < dn
      · refine ⟨srv.pingErr, now + lat, ?_, ?_, ?_, fun _ => rfl⟩
        · simp [hdn, hlt]
        · exact Nat.le_trans (Nat.le_of_lt hlt) (Nat.le_max_right now dn)
        · intro h
          exact absurd (h lat rfl) (Nat.not_le_of_lt hlt)
      · refine ⟨some ctx.err, max now dn, ?_, Nat.le_refl _, fun _ => rfl, ?_⟩
        · simp [hdn, hlt]
        · rintro ⟨lat1, hlat1, hlt1⟩
          cases hlat1
          exact absurd hlt1 hlt

/-- On a non-nil handle the ping handler always responds: the database check returns by
the later of its start and the composite deadline, and the response is the verdict on
the two results, sent when the later result has arrived. -/
theorem newPingHandler_responds (d : DB) (path : String) (r : Request) (w : World)
    (s : Sched) :
    ∃ dbErr dbAt logs,
      checkMySQL (handlerCtx r s.t0) (some d) w.db s.t1 =
        (Call.returned dbErr dbAt,
          { w.db with pingCalls := w.db.pingCalls ++
              [WithTimeout (handlerCtx r s.t0) (2 * Second) s.t1] }) ∧
      dbAt ≤ max s.t1 (s.t0 + 2 * Second) ∧
      ((∀ lat, w.db.pingLatency = some lat → s.t0 + 2 * Second ≤ s.t1 + lat) →
        dbErr.isNone = false) ∧
      (logs = logsOf dbErr ++ logsOf (checkFile path w.fs).1 ∨
        logs = logsOf (checkFile path w.fs).1 ++ logsOf dbErr) ∧
      newPingHandler (some d) path r w s =
        HandlerResult.responded
          (verdictResponse (dbErr.isNone && (checkFile path w.fs).1.isNone))
          (max dbAt (s.t2 + w.fs.createLatency)) logs
          { fs := (checkFile path w.fs).2
            db := { w.db with pingCalls := w.db.pingCalls ++
              [WithTimeout (handlerCtx r s.t0) (2 * Second) s.t1] } } := by
  obtain ⟨dl, dn, -, hdn, hdndl, hdl⟩ := pingCtx_done r s.t0 s.t1
  obtain ⟨e, t, hping, ht, hslow, -⟩ :=
    PingContext_returns (WithTimeout (handlerCtx r s.t0) (2 * Second) s.t1) d w.db s.t1 dn hdn
  have hck : checkMySQL (handlerCtx r s.t0) (some d) w.db s.t1 =
      (Call.returned e t,
        { w.db with pingCalls := w.db.pingCalls ++
            [WithTimeout (handlerCtx r s.t0) (2 * Second) s.t1] }) := by
    simp only [checkMySQL, hping]
  have hdn2 : dn ≤ s.t0 + 2 * Second := Nat.le_trans hdndl hdl
  refine ⟨e, t,
    if dbArrivesFirst t (s.t2 + w.fs.createLatency) s.dbFirstOnTie = true
      then logsOf e ++ logsOf (checkFile path w.fs).1
      else logsOf (checkFile path w.fs).1 ++ logsOf e,
    hck, ?_, ?_, ?_, ?_⟩
  · exact Nat.le_trans ht (max_le_max (Nat.le_refl _) hdn2)
  · intro h
    have he := hslow (fun lat hlat => Nat.le_trans hdn2 (h lat hlat))
    simp [he]
  · cases dbArrivesFirst t (s.t2 + w.fs.createLatency) s.dbFirstOnTie
    · right; rfl
    · left; rfl
  · unfold newPingHandler
    simp only [hck]
    cases dbArrivesFirst t (s.t2 + w.fs.createLatency) s.dbFirstOnTie
    · simp only [arrivals, aggregate_two, Bool.false_eq_true, if_false, Bool.and_comm]
    · simp only [arrivals, aggregate_two, if_true]

/-! ## Lemmas on start-up -/

theorem initDB_mux (env : Env) (host database user password rootCACert : String)
    (p : Proc) :
    (initDB env host database user password rootCACert p).2.mux = p.mux := by
  cases h1 : env.readFile rootCACert with
  | error e => simp [initDB, h1]
  | ok pem =>
      cases h2 : env.appendCertsFromPEM pem with
      | false => simp [initDB, h1, h2]
      | true =>
          cases h3 : env.sqlOpen "mysql" (user ++ ":" ++ password ++ "@tcp(" ++ host ++
              ":3306)/" ++ database ++ "?allowNativePasswords=true&tls=custom") with
          | error e => simp [initDB, h1, h2, h3]
          | ok db => simp [initDB, h1, h2, h3]

theorem mainFrom_mux (env : Env) (host database user password vol rootCACert : String)
    (p : Proc) (hp : p.mux = [])
    (h : (mainFrom env host database user password vol rootCACert p).isServing = true) :
    ∃ db, (initDB env host database user password rootCACert p).1 = (db, none) ∧
      (mainFrom env host database user password vol rootCACert p).proc.mux =
        [("/ping", newPingHandler db vol), ("/healthz/ready", newPingHandler db vol),
          ("/healthz/live", ok)] := by
  have hmux : (initDB env host database user password rootCACert p).2.mux = [] := by
    rw [initDB_mux]
    exact hp
  rcases hinit : initDB env host database user password rootCACert p with ⟨⟨db, err⟩, p1⟩
  rw [hinit] at hmux
  cases err with
  | some e => simp [mainFrom, hinit, MainResult.isServing] at h
  | none =>
      refine ⟨db, rfl, ?_⟩
      have hm : p1.mux = [] := hmux
      simp [mainFrom, hinit, MainResult.proc, Proc.log, HandleFunc, hm]

theorem mustGetenv_ok (env : Env) (k : String) (p : Proc) (h : env.getenv k ≠ "") :
    mustGetenv env k p = Except.ok (env.getenv k, p) := by
  simp [mustGetenv, h]

theorem mustGetenv_missing (env : Env) (k : String) (p : Proc) (h : env.getenv k = "") :
    mustGetenv env k p =
      Except.error (p.log (slogError "missing required env var" [("var", AttrVal.str k)])) := by
  simp [mustGetenv, h]

/-- When `main` reaches `http.ListenAndServe`, the multiplexer holds exactly the three
routes of lines 42-44, the first two bound to one ping handler over the handle returned
by `initDB` and the volume path read from `VOLUME_PATH`. -/
theorem main_mux (env : Env) (h : (main env).isServing = true) :
    ∃ db, (main env).proc.mux =
      [("/ping", newPingHandler db (env.getenv "VOLUME_PATH")),
        ("/healthz/ready", newPingHandler db (env.getenv "VOLUME_PATH")),
        ("/healthz/live", ok)] := by
  by_cases h1 : env.getenv "MYSQL_HOST" = ""
  · simp [main, mustGetenv_missing _ _ _ h1, MainResult.isServing] at h
  by_cases h2 : env.getenv "MYSQL_DATABASE" = ""
  · simp [main, mustGetenv_ok _ _ _ h1, mustGetenv_missing _ _ _ h2,
      MainResult.isServing] at h
  by_cases h3 : env.getenv "MYSQL_USER" = ""
  · simp [main, mustGetenv_ok _ _ _ h1, mustGetenv_ok _ _ _ h2, mustGetenv_missing _ _ _ h3,
      MainResult.isServing] at h
  by_cases h4 : env.getenv "MYSQL_PASSWORD" = ""
  · simp [main, mustGetenv_ok _ _ _ h1, mustGetenv_ok _ _ _ h2, mustGetenv_ok _ _ _ h3,
      mustGetenv_missing _ _ _ h4, MainResult.isServing] at h
  by_cases h5 : env.getenv "VOLUME_PATH" = ""
  · simp [main, mustGetenv_ok _ _ _ h1, mustGetenv_ok _ _ _ h2, mustGetenv_ok _ _ _ h3,
      mustGetenv_ok _ _ _ h4, mustGetenv_missing _ _ _ h5, MainResult.isServing] at h
  by_cases h6 : env.getenv "ROOT_CA_CERT" = ""
  · simp [main, mustGetenv_ok _ _ _ h1, mustGetenv_ok _ _ _ h2, mustGetenv_ok _ _ _ h3,
      mustGetenv_ok _ _ _ h4, mustGetenv_ok _ _ _ h5, mustGetenv_missing _ _ _ h6,
      MainResult.isServing] at h
  have hm : main env = mainFrom env (env.getenv "MYSQL_HOST") (env.getenv "MYSQL_DATABASE")
      (env.getenv "MYSQL_USER") (env.getenv "MYSQL_PASSWORD") (env.getenv "VOLUME_PATH")
      (env.getenv "ROOT_CA_CERT") Proc.init := by
    simp [main, mustGetenv_ok _ _ _ h1, mustGetenv_ok _ _ _ h2, mustGetenv_ok _ _ _ h3,
      mustGetenv_ok _ _ _ h4, mustGetenv_ok _ _ _ h5, mustGetenv_ok _ _ _ h6]
  rw [hm] at h ⊢
  obtain ⟨db, -, hmux⟩ := mainFrom_mux env _ _ _ _ _ _ Proc.init rfl h
  exact ⟨db, hmux⟩

theorem handler_ping (h1 h2 : Handler) :
    ServeMux.handler [("/ping", h1), ("/healthz/ready", h1), ("/healthz/live", h2)] "/ping"
      = h1 := by
  simp [ServeMux.handler, List.find?]

theorem handler_ready (h1 h2 : Handler) :
    ServeMux.handler [("/ping", h1), ("/healthz/ready", h1), ("/healthz/live", h2)]
      "/healthz/ready" = h1 := by
  simp [ServeMux.handler, List.find?]

theorem handler_live (h1 h2 : Handler) :
    ServeMux.handler [("/ping", h1), ("/healthz/ready", h1), ("/healthz/live", h2)]
      "/healthz/live" = h2 := by
  simp [ServeMux.handler, List.find?]

theorem initDB_unreadable (env : Env) (host database user password rootCACert : String)
    (p : Proc) (e : GoError) (h : env.readFile rootCACert = Except.error e) :
    initDB env host database user password rootCACert p = ((none, some e), p) := by
  simp [initDB, h]

theorem initDB_no_certificate (env : Env) (host database user password rootCACert : String)
    (p : Proc) (pem : List UInt8) (h : env.readFile rootCACert = Except.ok pem)
    (hpem : env.appendCertsFromPEM pem = false) :
    initDB env host database user password rootCACert p = ((none, none), p) := by
  simp [initDB, h, hpem]

/-! ## Lemmas on `path.Clean` and `path.Join` -/

theorem cleanLoop_false_cons (rooted : Bool) (c : Char) (rest rout : List Char) (dd : Nat) :
    cleanLoop rooted false (c :: rest) rout dd =
      if c = '/' then
        cleanLoop rooted false rest rout dd
      else if c = '.' ∧ elemEnds rest = true then
        cleanLoop rooted false rest rout dd
      else
        let sep : List Char :=
          if (rooted = true ∧ rout.length ≠ 1) ∨ (rooted = false ∧ rout.length ≠ 0) then
            '/' :: rout
          else rout
        match rest with
        | [] => (c :: sep, dd)
        | d :: rest2 =>
            if c = '.' ∧ d = '.' ∧ elemEnds rest2 = true then
              if rout.length > dd then
                cleanLoop rooted false rest2 (backtrack dd rout) dd
              else if rooted = false then
                let rout1 := if rout.length > 0 then '/' :: rout else rout
                cleanLoop rooted false rest2 ('.' :: '.' :: rout1) (rout1.length + 2)
              else
                cleanLoop rooted false rest2 rout dd
            else
              cleanLoop rooted true (d :: rest2) (c :: sep) dd := by
  cases rest with
  | nil => rfl
  | cons d rest2 => rfl

theorem elemEnds_append (p q : List Char) :
    elemEnds (p ++ '/' :: q) = elemEnds p := by
  cases p <;> rfl

theorem cleanLoop_nil (rooted m : Bool) (rout : List Char) (dd : Nat) :
    cleanLoop rooted m [] rout dd = (rout, dd) := by
  cases m <;> rfl

theorem cleanLoop_true_cons (rooted : Bool) (c : Char) (rest rout : List Char) (dd : Nat) :
    cleanLoop rooted true (c :: rest) rout dd =
      if c = '/' then cleanLoop rooted false rest rout dd
      else cleanLoop rooted true rest (c :: rout) dd := rfl

theorem cleanLoop_append (rooted : Bool) (q : List Char) (m : Bool) (p rout : List Char)
    (dd : Nat) :
    cleanLoop rooted m (p ++ '/' :: q) rout dd =
      cleanLoop rooted false q (cleanLoop rooted m p rout dd).1
        (cleanLoop rooted m p rout dd).2 := by
  induction m, p, rout, dd using cleanLoop.induct rooted with
  | case1 x rout dd =>
      rw [cleanLoop_nil, List.nil_append]
      cases x
      · rw [cleanLoop_false_cons, if_pos rfl]
      · rw [cleanLoop_true_cons, if_pos rfl]
  | case2 rest rout dd ih =>
      rw [List.cons_append, cleanLoop_true_cons, if_pos rfl, cleanLoop_true_cons, if_pos rfl]
      exact ih
  | case3 c rest rout dd hc ih =>
      rw [List.cons_append, cleanLoop_true_cons, if_neg hc, cleanLoop_true_cons, if_neg hc]
      exact ih
  | case4 rest rout dd ih =>
      rw [List.cons_append, cleanLoop_false_cons, if_pos rfl, cleanLoop_false_cons, if_pos rfl]
      exact ih
  | case5 c rest rout dd hc hdot ih =>
      have hdot2 : c = '.' ∧ elemEnds (rest ++ '/' :: q) = true := by
        rw [elemEnds_append]; exact hdot
      rw [List.cons_append, cleanLoop_false_cons, if_neg hc, if_pos hdot2,
        cleanLoop_false_cons, if_neg hc, if_pos hdot]
      exact ih
  | case6 c rout dd hc hdot =>
      have hdot2 : ¬ (c = '.' ∧ elemEnds ([] ++ '/' :: q) = true) := by
        rw [elemEnds_append]; exact hdot
      have hdd : ¬ (c = '.' ∧ '/' = '.' ∧ elemEnds q = true) := by
        rintro ⟨-, h, -⟩
        exact absurd h (by decide)
      rw [List.cons_append, cleanLoop_false_cons, if_neg hc, if_neg hdot2,
        cleanLoop_false_cons, if_neg hc, if_neg hdot]
      simp only [List.nil_append, if_neg hdd]
      rw [cleanLoop_true_cons, if_pos rfl]
  | case7 c rout dd hc d tail hdd hlen hdot ih =>
      have hdot2 : ¬ (c = '.' ∧ elemEnds ((d :: tail) ++ '/' :: q) = true) := by
        rw [elemEnds_append]; exact hdot
      have hdd2 : c = '.' ∧ d = '.' ∧ elemEnds (tail ++ '/' :: q) = true := by
        rw [elemEnds_append]; exact hdd
      rw [List.cons_append, cleanLoop_false_cons, if_neg hc, if_neg hdot2,
        cleanLoop_false_cons, if_neg hc, if_neg hdot]
      simp only [List.cons_append, if_pos hdd2, if_pos hdd, if_pos hlen]
      exact ih
  | case8 c rout dd hc d tail hdd hlen hr rout1 hdot ih =>
      have hdot2 : ¬ (c = '.' ∧ elemEnds ((d :: tail) ++ '/' :: q) = true) := by
        rw [elemEnds_append]; exact hdot
      have hdd2 : c = '.' ∧ d = '.' ∧ elemEnds (tail ++ '/' :: q) = true := by
        rw [elemEnds_append]; exact hdd
      rw [List.cons_append, cleanLoop_false_cons, if_neg hc, if_neg hdot2,
        cleanLoop_false_cons, if_neg hc, if_neg hdot]
      simp only [List.cons_append, if_pos hdd2, if_pos hdd, if_neg hlen, if_pos hr]
      exact ih
  | case9 c rout dd hc d tail hdd hlen hr hdot ih =>
      have hdot2 : ¬ (c = '.' ∧ elemEnds ((d :: tail) ++ '/' :: q) = true) := by
        rw [elemEnds_append]; exact hdot
      have hdd2 : c = '.' ∧ d = '.' ∧ elemEnds (tail ++ '/' :: q) = true := by
        rw [elemEnds_append]; exact hdd
      rw [List.cons_append, cleanLoop_false_cons, if_neg hc, if_neg hdot2,
        cleanLoop_false_cons, if_neg hc, if_neg hdot]
      simp only [List.cons_append, if_pos hdd2, if_pos hdd, if_neg hlen, if_neg hr]
      exact ih
  | case10 c rout dd hc sep d tail hdd hdot ih =>
      have hdot2 : ¬ (c = '.' ∧ elemEnds ((d :: tail) ++ '/' :: q) = true) := by
        rw [elemEnds_append]; exact hdot
      have hdd2 : ¬ (c = '.' ∧ d = '.' ∧ elemEnds (tail ++ '/' :: q) = true) := by
        rw [elemEnds_append]; exact hdd
      rw [List.cons_append, cleanLoop_false_cons, if_neg hc, if_neg hdot2,
        cleanLoop_false_cons, if_neg hc, if_neg hdot]
      simp only [List.cons_append, if_neg hdd2, if_neg hdd]
      exact ih

theorem backtrack_suffix (dd : Nat) (l : List Char) (h : dd < l.length) :
    ∃ pre, l = pre ++ backtrack dd l ∧ dd ≤ (backtrack dd l).length := by
  induction l with
  | nil => simp at h
  | cons c rest ih =>
      unfold backtrack
      by_cases hc : rest.length > dd ∧ c ≠ '/'
      · rw [if_pos hc]
        obtain ⟨pre, hpre, hlen⟩ := ih hc.1
        exact ⟨c :: pre, by rw [List.cons_append, ← hpre], hlen⟩
      · rw [if_neg hc]
        refine ⟨[c], rfl, ?_⟩
        simp only [List.length_cons] at h
        omega

theorem backtrack_getLast (l : List Char) (h : 1 < l.length)
    (hl : l.getLast? = some '/') : (backtrack 1 l).getLast? = some '/' := by
  obtain ⟨pre, hpre, hlen⟩ := backtrack_suffix 1 l h
  have hne : backtrack 1 l ≠ [] := by
    intro h0
    rw [h0] at hlen
    simp at hlen
  rw [hpre, List.getLast?_append_of_ne_nil _ hne] at hl
  exact hl

theorem cleanLoop_copy (rooted : Bool) (n rout : List Char) (dd : Nat)
    (h : ∀ c ∈ n, c ≠ '/') :
    cleanLoop rooted true n rout dd = (n.reverse ++ rout, dd) := by
  induction n generalizing rout with
  | nil => rfl
  | cons c rest ih =>
      rw [cleanLoop_true_cons, if_neg (h c (List.mem_cons_self c rest)),
        ih (c :: rout) (fun x hx => h x (List.mem_cons_of_mem c hx))]
      simp

theorem cleanLoop_rooted_inv (m : Bool) (p rout : List Char) (dd : Nat)
    (hdd : dd = 1) (hl : rout.getLast? = some '/') :
    (cleanLoop true m p rout dd).2 = 1 ∧
      (cleanLoop true m p rout dd).1.getLast? = some '/' := by
  induction m, p, rout, dd using cleanLoop.induct true with
  | case1 x rout dd =>
      rw [cleanLoop_nil]
      exact ⟨hdd, hl⟩
  | case2 rest rout dd ih =>
      rw [cleanLoop_true_cons, if_pos rfl]
      exact ih hdd hl
  | case3 c rest rout dd hc ih =>
      rw [cleanLoop_true_cons, if_neg hc]
      refine ih hdd ?_
      cases rout with
      | nil => simp at hl
      | cons a t => rw [List.getLast?_cons_cons]; exact hl
  | case4 rest rout dd ih =>
      rw [cleanLoop_false_cons, if_pos rfl]
      exact ih hdd hl
  | case5 c rest rout dd hc hdot ih =>
      rw [cleanLoop_false_cons, if_neg hc, if_pos hdot]
      exact ih hdd hl
  | case6 c rout dd hc hdot =>
      rw [cleanLoop_false_cons, if_neg hc, if_neg hdot]
      refine ⟨hdd, ?_⟩
      cases rout with
      | nil => simp at hl
      | cons a t =>
          simp only
          split
          · rw [List.getLast?_cons_cons, List.getLast?_cons_cons]; exact hl
          · rw [List.getLast?_cons_cons]; exact hl
  | case7 c rout dd hc d tail hdd2 hlen hdot ih =>
      rw [cleanLoop_false_cons, if_neg hc, if_neg hdot]
      simp only [if_pos hdd2, if_pos hlen]
      refine ih hdd ?_
      subst hdd
      exact backtrack_getLast rout hlen hl
  | case8 c rout dd hc d tail hdd2 hlen hr rout1 hdot ih =>
      exact absurd hr (by decide)
  | case9 c rout dd hc d tail hdd2 hlen hr hdot ih =>
      rw [cleanLoop_false_cons, if_neg hc, if_neg hdot]
      simp only [if_pos hdd2, if_neg hlen, if_neg hr]
      exact ih hdd hl
  | case10 c rout dd hc sep d tail hdd2 hdot ih =>
      rw [cleanLoop_false_cons, if_neg hc, if_neg hdot]
      have hsep : (c :: sep).getLast? = some '/' := by
        cases rout with
        | nil => simp at hl
        | cons a t =>
            simp only [sep]
            split
            · rw [List.getLast?_cons_cons, List.getLast?_cons_cons]; exact hl
            · rw [List.getLast?_cons_cons]; exact hl
      have h2 := ih hdd hsep
      simp only [if_neg hdd2]
      simpa only [sep, eq_self_iff_true] using h2

theorem cleanLoop_marker (rooted : Bool) (rout : List Char) (dd : Nat) :
    cleanLoop rooted false
        ['h', 'e', 'a', 'l', 't', 'h', 'c', 'h', 'e', 'c', 'k', '.', 't', 'x', 't'] rout dd =
      (['t', 'x', 't', '.', 'k', 'c', 'e', 'h', 'c', 'h', 't', 'l', 'a', 'e', 'h'] ++
        (if (rooted = true ∧ rout.length ≠ 1) ∨ (rooted = false ∧ rout.length ≠ 0) then
          '/' :: rout else rout), dd) := by
  have h1 : ¬ ('h' = '/') := by decide
  have h2 : ¬ ('h' = '.' ∧ elemEnds
      ['e', 'a', 'l', 't', 'h', 'c', 'h', 'e', 'c', 'k', '.', 't', 'x', 't'] = true) := by
    decide
  have h3 : ¬ ('h' = '.' ∧ 'e' = '.' ∧ elemEnds
      ['a', 'l', 't', 'h', 'c', 'h', 'e', 'c', 'k', '.', 't', 'x', 't'] = true) := by
    decide
  rw [cleanLoop_false_cons, if_neg h1, if_neg h2]
  simp only [if_neg h3]
  rw [cleanLoop_copy _ _ _ _ (by decide)]
  rfl

theorem cleanChars_marker (p : List Char) (hp : p ≠ []) :
    (cleanChars p = ['.'] ∧
      cleanChars (p ++ '/' ::
          ['h', 'e', 'a', 'l', 't', 'h', 'c', 'h', 'e', 'c', 'k', '.', 't', 'x', 't']) =
        ['h', 'e', 'a', 'l', 't', 'h', 'c', 'h', 'e', 'c', 'k', '.', 't', 'x', 't']) ∨
    (cleanChars p = ['/'] ∧
      cleanChars (p ++ '/' ::
          ['h', 'e', 'a', 'l', 't', 'h', 'c', 'h', 'e', 'c', 'k', '.', 't', 'x', 't']) =
        '/' :: ['h', 'e', 'a', 'l', 't', 'h', 'c', 'h', 'e', 'c', 'k', '.', 't', 'x', 't']) ∨
    cleanChars (p ++ '/' ::
        ['h', 'e', 'a', 'l', 't', 'h', 'c', 'h', 'e', 'c', 'k', '.', 't', 'x', 't']) =
      cleanChars p ++ '/' ::
        ['h', 'e', 'a', 'l', 't', 'h', 'c', 'h', 'e', 'c', 'k', '.', 't', 'x', 't'] := by
  cases p with
  | nil => exact absurd rfl hp
  | cons c rest =>
      by_cases hc : c = '/'
      · subst hc
        obtain ⟨hD, hR⟩ := cleanLoop_rooted_inv false rest ['/'] 1 rfl rfl
        have hjoin : cleanChars (('/' :: rest) ++ '/' ::
            ['h', 'e', 'a', 'l', 't', 'h', 'c', 'h', 'e', 'c', 'k', '.', 't', 'x', 't']) =
            (if (cleanLoop true false rest ['/'] 1).1.length ≠ 1
              then (cleanLoop true false rest ['/'] 1).1.reverse ++ ['/']
              else (cleanLoop true false rest ['/'] 1).1.reverse) ++
            ['h', 'e', 'a', 'l', 't', 'h', 'c', 'h', 'e', 'c', 'k', '.', 't', 'x', 't'] := by
          simp only [cleanChars, List.cons_append, if_true, cleanLoop_append, cleanLoop_marker]
          split <;> simp_all
        have hclean : cleanChars ('/' :: rest) = (cleanLoop true false rest ['/'] 1).1.reverse := by
          simp only [cleanChars, if_true]
          cases hR1 : (cleanLoop true false rest ['/'] 1).1 with
          | nil => rw [hR1] at hR; simp at hR
          | cons a t => simp
        by_cases hlen : (cleanLoop true false rest ['/'] 1).1.length = 1
        · right; left
          cases hR1 : (cleanLoop true false rest ['/'] 1).1 with
          | nil => rw [hR1] at hR; simp at hR
          | cons a t =>
              rw [hR1] at hlen hR
              cases t with
              | nil =>
                  simp only [List.getLast?_singleton, Option.some.injEq] at hR
                  subst hR
                  rw [hjoin, hclean, hR1]
                  simp
              | cons b u => simp at hlen
        · right; right
          rw [hjoin, hclean, if_pos hlen]
          simp
      · have hjoin : cleanChars ((c :: rest) ++ '/' ::
            ['h', 'e', 'a', 'l', 't', 'h', 'c', 'h', 'e', 'c', 'k', '.', 't', 'x', 't']) =
            (if (cleanLoop false false (c :: rest) [] 0).1.length ≠ 0
              then (cleanLoop false false (c :: rest) [] 0).1.reverse ++ ['/']
              else (cleanLoop false false (c :: rest) [] 0).1.reverse) ++
            ['h', 'e', 'a', 'l', 't', 'h', 'c', 'h', 'e', 'c', 'k', '.', 't', 'x', 't'] := by
          simp only [cleanChars, List.cons_append, if_neg hc]
          rw [← List.cons_append, cleanLoop_append, cleanLoop_marker]
          split <;> simp_all
        by_cases hlen : (cleanLoop false false (c :: rest) [] 0).1.length = 0
        · left
          have hnil : (cleanLoop false false (c :: rest) [] 0).1 = [] :=
            List.length_eq_zero.mp hlen
          refine ⟨?_, ?_⟩
          · simp only [cleanChars, if_neg hc, hnil]
            rfl
          · rw [hjoin, hnil]
            rfl
        · right; right
          have hclean : cleanChars (c :: rest) =
              (cleanLoop false false (c :: rest) [] 0).1.reverse := by
            simp only [cleanChars, if_neg hc, List.length_reverse, if_neg hlen]
          rw [hjoin, hclean, if_pos hlen]
          simp

theorem joinBuf_marker (c : Char) (rest : List Char) :
    joinBuf [] [String.mk (c :: rest), "healthcheck.txt"] =
      (c :: rest) ++ '/' ::
        ['h', 'e', 'a', 'l', 't', 'h', 'c', 'h', 'e', 'c', 'k', '.', 't', 'x', 't'] := by
  have h1 : ([] : List Char).length > 0 ∨ String.mk (c :: rest) ≠ "" := by
    right
    intro h
    have := congrArg String.data h
    simp at this
  have h2 : (([] : List Char) ++ (String.mk (c :: rest)).data).length > 0 ∨
      "healthcheck.txt" ≠ "" := Or.inr (by decide)
  have h3 : ¬ (([] : List Char).length > 0) := by simp
  have h4 : (([] : List Char) ++ (String.mk (c :: rest)).data).length > 0 := by simp
  have h5 : "healthcheck.txt".data =
      ['h', 'e', 'a', 'l', 't', 'h', 'c', 'h', 'e', 'c', 'k', '.', 't', 'x', 't'] := rfl
  rw [joinBuf, if_pos h1, if_neg h3, joinBuf, if_pos h2, if_pos h4, joinBuf, h5]
  simp

theorem Join_marker (dir : String) :
    (path.Clean dir = "." ∧ path.Join [dir, "healthcheck.txt"] = "healthcheck.txt") ∨
    (path.Clean dir = "/" ∧ path.Join [dir, "healthcheck.txt"] = "/healthcheck.txt") ∨
    path.Join [dir, "healthcheck.txt"] = path.Clean dir ++ "/healthcheck.txt" := by
  rcases dir with ⟨cs⟩
  cases cs with
  | nil => left; exact ⟨rfl, rfl⟩
  | cons c rest =>
      have hsum : ¬ (([String.mk (c :: rest), "healthcheck.txt"].map String.length).sum = 0) := by
        simp [String.length]
      have hJ : path.Join [String.mk (c :: rest), "healthcheck.txt"] =
          String.mk (cleanChars ((c :: rest) ++ '/' ::
            ['h', 'e', 'a', 'l', 't', 'h', 'c', 'h', 'e', 'c', 'k', '.', 't', 'x', 't'])) := by
        rw [path.Join, if_neg hsum, joinBuf_marker]
      have hC : path.Clean (String.mk (c :: rest)) = String.mk (cleanChars (c :: rest)) := rfl
      rcases cleanChars_marker (c :: rest) (List.cons_ne_nil c rest) with h | h | h
      · left
        rw [hJ, hC, h.1, h.2]
        exact ⟨rfl, rfl⟩
      · right; left
        rw [hJ, hC, h.1, h.2]
        exact ⟨rfl, rfl⟩
      · right; right
        rw [hJ, hC, h]
        rfl

/-! ## The claims -/

/-- C1: for every pair of check results and either arrival order the ping handler
responds, with status 200 and body OK exactly when both results are nil and with status
503 and body DOWN otherwise; the handler built by `newPingHandler` on a non-nil handle
always responds, with that response for the results of its own two checks. -/
theorem C1_ping_verdict (dbErr fsErr : Err) (dbFirst : Bool) (d : DB) (path : String)
    (r : Request) (w : World) (s : Sched) :
    (∃ a, aggregate (arrivals dbErr fsErr dbFirst) = some a ∧
      a.response = (if dbErr = none ∧ fsErr = none
        then ({ status := 200, body := "OK" } : Response)
        else { status := 503, body := "DOWN" }) ∧
      (a.response = { status := 200, body := "OK" } ↔ (dbErr = none ∧ fsErr = none)) ∧
      (a.healthy = true ↔ (dbErr = none ∧ fsErr = none))) ∧
    (∃ e t, (checkMySQL (handlerCtx r s.t0) (some d) w.db s.t1).1 = Call.returned e t ∧
      (newPingHandler (some d) path r w s).response? =
        some (if e = none ∧ (checkFile path w.fs).1 = none
          then ({ status := 200, body := "OK" } : Response)
          else { status := 503, body := "DOWN" })) := by
  constructor
  · obtain ⟨logs, hagg⟩ := aggregate_arrivals dbErr fsErr dbFirst
    refine ⟨_, hagg, ?_, ?_, ?_⟩
    · cases dbErr <;> cases fsErr <;> simp [verdictResponse]
    · cases dbErr <;> cases fsErr <;> simp [verdictResponse]
    · cases dbErr <;> cases fsErr <;> simp
  · obtain ⟨e, t, logs, hck, -, -, -, hres⟩ := newPingHandler_responds d path r w s
    refine ⟨e, t, by rw [hck], ?_⟩
    rw [hres]
    cases e <;> cases (checkFile path w.fs).1 <;>
      simp [HandlerResult.response?, verdictResponse]

/-- C2: the loop takes exactly two results from `errC` before the handler responds (with
fewer it never responds, a third is left in the channel) and logs one "health check
failed" record per non-nil result, carrying that result's error: none, one or two
records; the handler built by `newPingHandler` logs those records for its two checks. -/
theorem C2_no_short_circuit (a b : Err) (rest : Chan) (d : DB) (path : String)
    (r : Request) (w : World) (s : Sched) :
    (∃ agg, aggregate (a :: b :: rest) = some agg ∧ agg.errC = rest ∧
      agg.logs = logsOf a ++ logsOf b ∧
      agg.logs.length = (if a = none then 0 else 1) + (if b = none then 0 else 1)) ∧
    aggregate [a] = none ∧ aggregate [] = none ∧
    (∃ e t, (checkMySQL (handlerCtx r s.t0) (some d) w.db s.t1).1 = Call.returned e t ∧
      ((newPingHandler (some d) path r w s).logs? =
          some (logsOf e ++ logsOf (checkFile path w.fs).1) ∨
        (newPingHandler (some d) path r w s).logs? =
          some (logsOf (checkFile path w.fs).1 ++ logsOf e))) := by
  refine ⟨⟨_, aggregate_two a b rest, rfl, rfl, ?_⟩, aggregate_one a, rfl, ?_⟩
  · cases a <;> cases b <;> rfl
  · obtain ⟨e, t, logs, hck, -, -, hlogs, hres⟩ := newPingHandler_responds d path r w s
    refine ⟨e, t, by rw [hck], ?_⟩
    rw [hres]
    rcases hlogs with hl | hl
    · left; simp [HandlerResult.logs?, hl]
    · right; simp [HandlerResult.logs?, hl]

/-- C3: aggregating two check results in arrival order (a, b) and in arrival order
(b, a) gives the same verdict, the same status code and the same body. -/
theorem C3_order_independent (a b : Err) :
    ∃ x y, aggregate [a, b] = some x ∧ aggregate [b, a] = some y ∧
      x.healthy = y.healthy ∧ x.response.status = y.response.status ∧
      x.response.body = y.response.body := by
  refine ⟨_, _, aggregate_two a b [], aggregate_two b a [], ?_, ?_, ?_⟩ <;>
    simp only [Bool.and_comm]

/-- C4: two runs whose results fail in the same positions, whatever errors they carry,
get the same status code and the same body; the errors reach only the log. -/
theorem C4_error_detail_hidden (a b a1 b1 : Err) (ha : a.isSome = a1.isSome)
    (hb : b.isSome = b1.isSome) :
    ∃ x y, aggregate [a, b] = some x ∧ aggregate [a1, b1] = some y ∧
      x.response = y.response ∧ x.logs = logsOf a ++ logsOf b ∧
      y.logs = logsOf a1 ++ logsOf b1 := by
  refine ⟨_, _, aggregate_two a b [], aggregate_two a1 b1 [], ?_, rfl, rfl⟩
  cases a <;> cases a1 <;> cases b <;> cases b1 <;> simp_all

/-- Instance of C4: a refused connection and a refused login, volume healthy in both
runs. -/
theorem C4_error_detail_hidden_witness :
    (some ({ msg := "dial tcp: connection refused" } : GoError)).isSome =
        (some ({ msg := "Access denied for user" } : GoError)).isSome ∧
      (none : Err).isSome = (none : Err).isSome ∧
      ∃ x y, aggregate [some { msg := "dial tcp: connection refused" }, none] = some x ∧
        aggregate [some { msg := "Access denied for user" }, none] = some y ∧
        x.response = y.response ∧
        x.logs = logsOf (some { msg := "dial tcp: connection refused" }) ++ logsOf none ∧
        y.logs = logsOf (some { msg := "Access denied for user" }) ++ logsOf none :=
  ⟨rfl, rfl, C4_error_detail_hidden _ _ _ _ rfl rfl⟩

/-- C5: the handler `ok` responds with status 200 and an empty body at once, for every
request, world and schedule, logs nothing and leaves the world as it was (no ping is
recorded, no file is touched); and it is the handler that `main` binds to
`/healthz/live`. -/
theorem C5_live_always_ok (env : Env) (hserving : (main env).isServing = true)
    (r : Request) (w : World) (s : Sched) :
    ok r w s = HandlerResult.responded { status := 200, body := "" } s.t0 [] w ∧
    (main env).proc.mux.serve { r with path := "/healthz/live" } w s =
      HandlerResult.responded { status := 200, body := "" } s.t0 [] w := by
  obtain ⟨db, hmux⟩ := main_mux env hserving
  refine ⟨rfl, ?_⟩
  simp only [ServeMux.serve, hmux, handler_live]
  rfl

/-- Instance of C5: a complete start-up environment, a read-only volume and a database
that never answers. -/
theorem C5_live_always_ok_witness :
    (main (startEnv true)).isServing = true ∧
      ok (plainRequest "/healthz/live") { fs := readOnlyFS, db := freshDB none none }
          promptSched =
        HandlerResult.responded { status := 200, body := "" } promptSched.t0 []
          { fs := readOnlyFS, db := freshDB none none } ∧
      (main (startEnv true)).proc.mux.serve
          { plainRequest "/healthz/live" with path := "/healthz/live" }
          { fs := readOnlyFS, db := freshDB none none } promptSched =
        HandlerResult.responded { status := 200, body := "" } promptSched.t0 []
          { fs := readOnlyFS, db := freshDB none none } :=
  ⟨rfl, C5_live_always_ok (startEnv true) rfl _ _ _⟩

/-- C6: when `main` serves, `/healthz/ready` and `/ping` are bound to the same handler,
the ping handler over the handle of `initDB` and the volume path; so a request to one path
and the same request to the other end alike: same response, same instant, same log
records, same world. -/
theorem C6_ready_same_as_ping (env : Env) (hserving : (main env).isServing = true)
    (r : Request) (w : World) (s : Sched) :
    (∃ db, (main env).proc.mux.handler "/healthz/ready" =
        newPingHandler db (env.getenv "VOLUME_PATH") ∧
      (main env).proc.mux.handler "/ping" = newPingHandler db (env.getenv "VOLUME_PATH")) ∧
    (main env).proc.mux.serve { r with path := "/healthz/ready" } w s =
      (main env).proc.mux.serve { r with path := "/ping" } w s := by
  obtain ⟨db, hmux⟩ := main_mux env hserving
  refine ⟨⟨db, ?_, ?_⟩, ?_⟩
  · rw [hmux, handler_ready]
  · rw [hmux, handler_ping]
  · simp only [ServeMux.serve, hmux, handler_ready, handler_ping]
    rfl

/-- Instance of C6: a complete start-up environment, a read-only volume and a healthy
database. -/
theorem C6_ready_same_as_ping_witness :
    (main (startEnv true)).isServing = true ∧
      (main (startEnv true)).proc.mux.serve
          { plainRequest "/" with path := "/healthz/ready" }
          { fs := readOnlyFS, db := freshDB none (some 1000000) } promptSched =
        (main (startEnv true)).proc.mux.serve
          { plainRequest "/" with path := "/ping" }
          { fs := readOnlyFS, db := freshDB none (some 1000000) } promptSched :=
  ⟨rfl, (C6_ready_same_as_ping (startEnv true) rfl _ _ _).2⟩

/-- C7, at the failing input: with a readable CA file that holds no certificate `initDB`
returns a nil handle and a nil error, and `main` does not exit: it registers the three
routes and calls `http.ListenAndServe`. -/
theorem C7_invalid_ca_is_not_fatal :
    (initDB (startEnv false) "db.local" "ping" "app" "secret" "/etc/ca.pem" Proc.init).1 =
        (none, none) ∧
      (main (startEnv false)).isServing = true ∧
      (main (startEnv false)).exitCode = none ∧
      (main (startEnv false)).proc.patterns = ["/ping", "/healthz/ready", "/healthz/live"] :=
  ⟨rfl, rfl, rfl, rfl⟩

/-- C8, refuted as stated: the volume check is not launched against the bounded context.
With a healthy database and a volume on which the creation takes five seconds, the
composite deadline (two seconds) passes while `checkFile` is still running, yet that
check delivers nil, the verdict is healthy, and the response 200 OK is sent after five
seconds. -/
theorem C8_slow_volume_counterexample :
    (handlerCtx (plainRequest "/ping") promptSched.t0).deadline = some (2 * Second) ∧
      2 * Second < promptSched.t2 + (writableFS (5 * Second)).createLatency ∧
      (checkFile "/vol" (writableFS (5 * Second))).1 = none ∧
      (newPingHandler (some someHandle) "/vol" (plainRequest "/ping")
          { fs := writableFS (5 * Second), db := freshDB none (some 1000000) }
          promptSched).response? = some { status := 200, body := "OK" } ∧
      (newPingHandler (some someHandle) "/vol" (plainRequest "/ping")
          { fs := writableFS (5 * Second), db := freshDB none (some 1000000) }
          promptSched).time? = some (5 * Second) := by
  refine ⟨by decide, by decide, by decide, by decide, by decide⟩

/-- C8, amended: when the composite deadline comes before the database round trip
completes (or the server never answers), the database check returns a failure no later
than the later of its own start and the deadline, so the verdict is unhealthy and the
response is 503 DOWN; the response is sent when the later of the two results has
arrived, the volume check returning only when `os.Create` does. -/
theorem C8_database_check_bounded (d : DB) (path : String) (r : Request) (w : World)
    (s : Sched)
    (hslow : ∀ lat, w.db.pingLatency = some lat → s.t0 + 2 * Second ≤ s.t1 + lat) :
    ∃ e t logs w1,
      (checkMySQL (handlerCtx r s.t0) (some d) w.db s.t1).1 = Call.returned (some e) t ∧
      t ≤ max s.t1 (s.t0 + 2 * Second) ∧
      newPingHandler (some d) path r w s =
        HandlerResult.responded { status := 503, body := "DOWN" }
          (max t (s.t2 + w.fs.createLatency)) logs w1 := by
  obtain ⟨e, t, logs, hck, ht, hfail, -, hres⟩ := newPingHandler_responds d path r w s
  have he := hfail hslow
  cases e with
  | none => simp at he
  | some err =>
      refine ⟨err, t, logs,
        { fs := (checkFile path w.fs).2
          db := { w.db with pingCalls := w.db.pingCalls ++
            [WithTimeout (handlerCtx r s.t0) (2 * Second) s.t1] } },
        by rw [hck], ht, ?_⟩
      rw [hres]
      simp [verdictResponse]

/-- Instance of the amended C8: a round trip of three seconds against the deadline of two. -/
theorem C8_database_check_bounded_witness :
    (∀ lat, (freshDB none (some (3 * Second))).pingLatency = some lat →
        promptSched.t0 + 2 * Second ≤ promptSched.t1 + lat) ∧
      ∃ e t logs w1,
        (checkMySQL (handlerCtx (plainRequest "/ping") promptSched.t0) (some someHandle)
            (freshDB none (some (3 * Second))) promptSched.t1).1 =
          Call.returned (some e) t ∧
        t ≤ max promptSched.t1 (promptSched.t0 + 2 * Second) ∧
        newPingHandler (some someHandle) "/vol" (plainRequest "/ping")
            { fs := writableFS 1000, db := freshDB none (some (3 * Second)) } promptSched =
          HandlerResult.responded { status := 503, body := "DOWN" }
            (max t (promptSched.t2 + (writableFS 1000).createLatency)) logs w1 :=
  have h : ∀ lat, (freshDB none (some (3 * Second))).pingLatency = some lat →
      promptSched.t0 + 2 * Second ≤ promptSched.t1 + lat := by
    intro lat hlat
    simp only [freshDB, Option.some.injEq] at hlat
    subst hlat
    decide
  ⟨h, C8_database_check_bounded someHandle "/vol" (plainRequest "/ping")
    { fs := writableFS 1000, db := freshDB none (some (3 * Second)) } promptSched h⟩

/-- C9: for a handler entered at `t0` and a database check started at `t1 ≥ t0`, the
context under which `checkMySQL` pings (the one the handler leaves recorded on the
database) has as its deadline the earliest of the inbound deadline (if any), `t0 + 2s`
and `t1 + 2s`; that is already the deadline of the handler's context, and it is never
later than two seconds after the handler started. -/
theorem C9_ping_deadline (d : DB) (path : String) (r : Request) (w : World) (s : Sched)
    (h : s.t0 ≤ s.t1) :
    ∃ c dl resp t logs w1,
      newPingHandler (some d) path r w s = HandlerResult.responded resp t logs w1 ∧
      w1.db.pingCalls = w.db.pingCalls ++ [c] ∧
      (checkMySQL (handlerCtx r s.t0) (some d) w.db s.t1).2.pingCalls =
        w.db.pingCalls ++ [c] ∧
      c.deadline = earliest (earliest r.ctx.deadline (some (s.t0 + 2 * Second)))
        (some (s.t1 + 2 * Second)) ∧
      c.deadline = some dl ∧
      dl ≤ s.t0 + 2 * Second ∧ dl ≤ s.t1 + 2 * Second ∧
      (∀ x, r.ctx.deadline = some x → dl ≤ x) ∧
      (r.ctx.deadline = some dl ∨ dl = s.t0 + 2 * Second ∨ dl = s.t1 + 2 * Second) ∧
      c.deadline = (handlerCtx r s.t0).deadline := by
  obtain ⟨dl0, dn, hdl, -, -, hle⟩ := pingCtx_done r s.t0 s.t1
  obtain ⟨e, t, logs, hck, -, -, -, hres⟩ := newPingHandler_responds d path r w s
  have hform : (WithTimeout (handlerCtx r s.t0) (2 * Second) s.t1).deadline =
      earliest (earliest r.ctx.deadline (some (s.t0 + 2 * Second)))
        (some (s.t1 + 2 * Second)) := by
    simp only [WithTimeout, handlerCtx, WithDeadline_deadline]
  have hctx : (handlerCtx r s.t0).deadline =
      earliest r.ctx.deadline (some (s.t0 + 2 * Second)) := by
    simp only [WithTimeout, handlerCtx, WithDeadline_deadline]
  rw [hform] at hdl
  obtain ⟨-, h2, h3, h4⟩ := earliest_three r.ctx.deadline _ _ dl0 hdl
  refine ⟨WithTimeout (handlerCtx r s.t0) (2 * Second) s.t1, dl0, _, _, _, _, hres, rfl, ?_,
    hform, ?_, hle, h2, h3, h4, ?_⟩
  · rw [hck]
  · rw [hform, hdl]
  · rw [hform, hctx]
    exact earliest_later r.ctx.deadline _ _ (Nat.add_le_add_right h _)

/-- Instance of C9: no inbound deadline, handler entered at 0, database check started one
microsecond later. -/
theorem C9_ping_deadline_witness :
    ({ t0 := 0, t1 := 1000, t2 := 0, dbFirstOnTie := true } : Sched).t0 ≤
        ({ t0 := 0, t1 := 1000, t2 := 0, dbFirstOnTie := true } : Sched).t1 ∧
      ∃ c dl resp t logs w1,
        newPingHandler (some someHandle) "/vol" (plainRequest "/ping")
            { fs := writableFS 1000, db := freshDB none (some 1000000) }
            { t0 := 0, t1 := 1000, t2 := 0, dbFirstOnTie := true } =
          HandlerResult.responded resp t logs w1 ∧
        w1.db.pingCalls = (freshDB none (some 1000000)).pingCalls ++ [c] ∧
        (checkMySQL (handlerCtx (plainRequest "/ping") 0) (some someHandle)
            (freshDB none (some 1000000)) 1000).2.pingCalls =
          (freshDB none (some 1000000)).pingCalls ++ [c] ∧
        c.deadline = earliest (earliest (plainRequest "/ping").ctx.deadline
          (some (0 + 2 * Second))) (some (1000 + 2 * Second)) ∧
        c.deadline = some dl ∧
        dl ≤ 0 + 2 * Second ∧ dl ≤ 1000 + 2 * Second ∧
        (∀ x, (plainRequest "/ping").ctx.deadline = some x → dl ≤ x) ∧
        ((plainRequest "/ping").ctx.deadline = some dl ∨ dl = 0 + 2 * Second ∨
          dl = 1000 + 2 * Second) ∧
        c.deadline = (handlerCtx (plainRequest "/ping") 0).deadline :=
  ⟨by decide, C9_ping_deadline someHandle "/vol" (plainRequest "/ping")
    { fs := writableFS 1000, db := freshDB none (some 1000000) }
    { t0 := 0, t1 := 1000, t2 := 0, dbFirstOnTie := true } (by decide)⟩

/-- C10: `checkFile` returns exactly the error that the creation of
`path.Join(dir, "healthcheck.txt")` meets (nil when it succeeds). When the creation
fails the volume is left as it was; when it succeeds that file exists with no content,
every other file is unchanged, and the handle is released. That file is the one named
`healthcheck.txt` directly inside the cleaned `dir`. -/
theorem C10_checkFile_frame (dir : String) (fs : FS) :
    (checkFile dir fs).1 = fs.createErr (path.Join [dir, "healthcheck.txt"]) ∧
    (∀ n, n ≠ path.Join [dir, "healthcheck.txt"] →
      (checkFile dir fs).2.files n = fs.files n) ∧
    (checkFile dir fs).2.files (path.Join [dir, "healthcheck.txt"]) =
      (if fs.createErr (path.Join [dir, "healthcheck.txt"]) = none then some []
        else fs.files (path.Join [dir, "healthcheck.txt"])) ∧
    (checkFile dir fs).2.openFiles = fs.openFiles ∧
    (checkFile dir fs).2.createErr = fs.createErr ∧
    ((path.Clean dir = "." ∧ path.Join [dir, "healthcheck.txt"] = "healthcheck.txt") ∨
      (path.Clean dir = "/" ∧ path.Join [dir, "healthcheck.txt"] = "/healthcheck.txt") ∨
      path.Join [dir, "healthcheck.txt"] = path.Clean dir ++ "/healthcheck.txt") := by
  cases h : fs.createErr (path.Join [dir, "healthcheck.txt"]) with
  | some e =>
      refine ⟨?_, ?_, ?_, ?_, ?_, Join_marker dir⟩ <;> simp [checkFile, os.Create, h]
  | none =>
      refine ⟨?_, ?_, ?_, ?_, ?_, Join_marker dir⟩
      · simp [checkFile, os.Create, File.Close, h]
      · intro n hn
        simp [checkFile, os.Create, File.Close, h, hn]
      · simp [checkFile, os.Create, File.Close, h]
      · simp [checkFile, os.Create, File.Close, h]
      · simp [checkFile, os.Create, File.Close, h]

end GoPing
